import Mathlib

/-!
Shallow embedding of the GHAS license-analysis tool (`analysis.py`).

The embedding covers the code that the verified claims are about:
  * the per-commit author-identity resolution and deduplicating insertion
    performed by `GitHubAnalyzer.fetch_repo_committers` (lines 272-281);
  * the cursor-mode page loop of `fetch_repo_committers` (lines 185-292),
    including the rate-limit guard (lines 188-194), the two successive
    GraphQL POSTs per iteration (lines 196-226), header-driven rate-limit
    state updates (lines 207-215), the abort conditions (lines 228-236)
    and the empty-history early return (lines 263-265);
  * the coverage reconciliation of `analyze_committer_coverage`
    (lines 318-357);
  * the per-repository failure handling of `process_organizations`
    (lines 121-147) and `process_repositories` (lines 306-314).

Python `Optional[str]` values that only ever flow through truthiness tests
and `x or y` expressions are modelled as plain `String`s with `""` standing
for both `None` and the empty string: the two are indistinguishable in every
use the code makes of them.  Python `dict`s (insertion-ordered, re-insertion
keeps the original position) are modelled as association lists with
`dictInsert`.  HTTP traffic is modelled by feeding the loop the sequence of
responses the server would return.
-/

/-- A committer record as stored by the tool: both fields always present,
possibly empty, mirroring `{"username": username or "", "email": email}`. -/
structure Committer where
  username : String
  email : String
deriving DecidableEq

/-- A commit author as parsed from one GraphQL history node.  `hasUser` is
the Python truthiness of `author.get("user", {})` (false when the `user`
object is absent, `null`, or `{}`); `login` is `user["login"]` normalised to
`""` when missing or `null`; `name` and `email` are the freeform fields,
`""` when absent. -/
structure Author where
  name : String
  email : String
  hasUser : Bool
  login : String
deriving DecidableEq

/-- Line 275: `username = user.get("login") if user else author.get("name")`. -/
def authorUsername (a : Author) : String :=
  if a.hasUser then a.login else a.name

/-- Line 279: `key = username or email`. -/
def authorKey (a : Author) : String :=
  if authorUsername a ≠ "" then authorUsername a else a.email

/-- Python `dict` assignment `m[k] = v` on an insertion-ordered dict:
overwrite in place when the key exists, append otherwise. -/
def dictInsert {α : Type} (m : List (String × α)) (k : String) (v : α) :
    List (String × α) :=
  if m.any (fun p => p.1 = k) then
    m.map (fun p => if p.1 = k then (k, v) else p)
  else m ++ [(k, v)]

/-- Lines 272-281: process one commit author, inserting
`{"username": username or "", "email": email}` under the resolved key when
the key is non-empty and skipping the record otherwise. -/
def insertAuthor (m : List (String × Committer)) (a : Author) :
    List (String × Committer) :=
  if authorKey a ≠ "" then dictInsert m (authorKey a) ⟨authorUsername a, a.email⟩
  else m

/-- Rate-limit headers of one HTTP response: `x-ratelimit-remaining` and
`x-ratelimit-reset` when present (timestamps in epoch seconds). -/
structure RLHeaders where
  remaining : Option Int
  reset : Option Int
deriving DecidableEq

/-- The local rate-limit state of one `fetch_repo_committers` call:
`remaining_rate_limit` and `rate_limit_reset` (lines 182-183). -/
structure RLState where
  remaining : Int
  reset : Option Int
deriving DecidableEq

/-- Lines 182-183: `remaining_rate_limit = 5000`, `rate_limit_reset = None`,
executed at the start of every `fetch_repo_committers` call. -/
def rlInit : RLState := ⟨5000, none⟩

/-- Lines 207-215: store `remaining` and `resetAt` from the response headers
when present, leaving the prior values unchanged when absent. -/
def rlUpdate (s : RLState) (h : RLHeaders) : RLState :=
  ⟨match h.remaining with | some n => n | none => s.remaining,
   match h.reset with | some t => some t | none => s.reset⟩

/-- Lines 188-194: the seconds slept before the next request.  When
`remaining < 1` and a reset time is known and strictly in the future, sleep
`(resetAt - now) + 1`; otherwise do not sleep. -/
def guardWait (s : RLState) (now : Int) : Int :=
  match s.reset with
  | none => 0
  | some r =>
    if s.remaining < 1 then
      if r - now > 0 then (r - now) + 1 else 0
    else 0

/-- One page of the commit-history connection as parsed from a GraphQL
response body. -/
structure HistoryPage where
  hasNextPage : Bool
  endCursor : Option String
  nodes : List Author
deriving DecidableEq

/-- One HTTP response: its rate-limit headers and its parsed body.
`history` is `none` exactly when the chain of `.get` accesses on
`data.repository.defaultBranchRef.target.history` (lines 251-261) bottoms
out in a falsy value. -/
structure Resp where
  headers : RLHeaders
  status : Nat
  hasErrors : Bool
  history : Option HistoryPage
deriving DecidableEq

/-- The two responses one loop iteration receives: the code posts the same
request twice (lines 197-205 and 218-226), so each iteration consumes a
pair. -/
structure RoundTrip where
  first : Resp
  second : Resp
deriving DecidableEq

/-- Outcome of a `fetch_repo_committers` call. `outOfPages` is the model
artifact for a response stream that ends while the loop still expects a
page. -/
inductive FetchResult where
  | ok (committers : List Committer)
  | fail (msg : String)
  | outOfPages
deriving DecidableEq

/-- Observable trace of one `fetch_repo_committers` call: its outcome, the
final rate-limit state, the sleeps performed before each iteration, and the
cursor argument of every POST in order. -/
structure FetchTrace where
  result : FetchResult
  rlState : RLState
  waits : List Int
  requests : List (Option String)
deriving DecidableEq

/-- The `while has_next_page` loop of `fetch_repo_committers`
(lines 185-292).  Each iteration: rate-limit guard; first POST (headers
read, lines 207-215); second POST (status check line 228, error check
line 234, body parse lines 251-284).  `return []` on a missing history
(line 265), raise on bad status or GraphQL errors (lines 231, 236),
otherwise accumulate authors and continue while `hasNextPage`. -/
def fetchGo (now : Int) :
    List RoundTrip → Option String → RLState → List (String × Committer) →
    FetchTrace
  | [], _, s, _ => ⟨.outOfPages, s, [], []⟩
  | t :: rest, cursor, s, acc =>
    let w := guardWait s now
    let s2 := rlUpdate s t.first.headers
    if t.second.status ≠ 200 then
      ⟨.fail "status", s2, [w], [cursor, cursor]⟩
    else if t.second.hasErrors then
      ⟨.fail "graphql", s2, [w], [cursor, cursor]⟩
    else
      match t.second.history with
      | none => ⟨.ok [], s2, [w], [cursor, cursor]⟩
      | some h =>
        let acc2 := h.nodes.foldl insertAuthor acc
        if h.hasNextPage then
          let tr := fetchGo now rest h.endCursor s2 acc2
          ⟨tr.result, tr.rlState, w :: tr.waits, cursor :: cursor :: tr.requests⟩
        else
          ⟨.ok (acc2.map Prod.snd), s2, [w], [cursor, cursor]⟩

/-- A full `fetch_repo_committers(owner, repo)` call: cursor starts at
`None` (line 154), committer dict empty (line 153), rate-limit state freshly
initialised (lines 182-183). -/
def fetchRepoCommitters (now : Int) (trips : List RoundTrip) : FetchTrace :=
  fetchGo now trips none rlInit []

/-- Whether the traversal aborts: scanning pages in order, some page reached
while the loop is still running has a non-200 status or an error-bearing
GraphQL payload. -/
def aborts : List RoundTrip → Bool
  | [] => false
  | t :: rest =>
    if t.second.status ≠ 200 then true
    else if t.second.hasErrors then true
    else
      match t.second.history with
      | none => false
      | some h => h.hasNextPage && aborts rest

/-- Lines 325-327 of `analyze_committer_coverage`: the resolved key of a
stored committer record, `key = username or email`. -/
def committerKey (c : Committer) : String :=
  if c.username ≠ "" then c.username else c.email

/-- Lines 321-329: fold all per-repository committer lists into one dict
keyed by resolved key (last writer wins). -/
def allRepoCommitters (repoData : List (List Committer)) :
    List (String × Committer) :=
  repoData.foldl
    (fun m cs =>
      cs.foldl
        (fun m2 c =>
          if committerKey c ≠ "" then dictInsert m2 (committerKey c) c else m2)
        m)
    []

/-- One entry of a repository's `advanced_security_committers_breakdown`
list in the billing payload. -/
structure BreakdownEntry where
  user_login : String
  email : String
deriving DecidableEq

/-- One repository record of the billing payload. -/
structure GhasRepo where
  advanced_security_committers : Int
  breakdown : List BreakdownEntry
deriving DecidableEq

/-- Lines 337-341, set side: the inner loop over one repository's
breakdown, adding each non-empty `user_login` to the accumulated set. -/
def ghasUserStep (s : Finset String) (r : GhasRepo) : Finset String :=
  if r.advanced_security_committers > 0 then
    r.breakdown.foldl
      (fun s2 b => if b.user_login ≠ "" then insert b.user_login s2 else s2)
      s
  else s

/-- Lines 332-341: the `ghas_committer_usernames` set — every non-empty
`user_login` in the breakdown of a repository with a positive committer
count. -/
def ghasCommitterUsernames (repos : List GhasRepo) : Finset String :=
  repos.foldl ghasUserStep ∅

/-- Lines 337-345, list side: the committer records one repository's
breakdown contributes to `ghas_committer_objects`. -/
def ghasBreakdownCommitters (r : GhasRepo) : List Committer :=
  r.breakdown.filterMap
    (fun b => if b.user_login ≠ "" then some ⟨b.user_login, b.email⟩ else none)

/-- Lines 336-345, list side: the outer loop body appending one qualifying
repository's breakdown records. -/
def ghasObjStep (l : List Committer) (r : GhasRepo) : List Committer :=
  if r.advanced_security_committers > 0 then l ++ ghasBreakdownCommitters r
  else l

/-- Lines 333-345: the `ghas_committer_objects` list — one record appended
per qualifying breakdown entry, with no deduplication. -/
def ghasCommitterObjects (repos : List GhasRepo) : List Committer :=
  repos.foldl ghasObjStep []

/-- Line 353: `total_ghas_committers` is the length of
`ghas_committer_objects`. -/
def totalGhasCommitters (repos : List GhasRepo) : Nat :=
  (ghasCommitterObjects repos).length

/-- The key set of a committer dict. -/
def keysOf (m : List (String × Committer)) : Finset String :=
  (m.map Prod.fst).toFinset

/-- Line 348: `new_committer_keys = set(all_repo_committers.keys()) -
ghas_committer_usernames`. -/
def newCommitterKeys (repoData : List (List Committer))
    (repos : List GhasRepo) : Finset String :=
  keysOf (allRepoCommitters repoData) \ ghasCommitterUsernames repos

/-- Line 349: `[all_repo_committers[key] for key in new_committer_keys]`,
with `order` standing for the iteration order the Python hash set happens to
produce — the code fixes no order of its own. -/
def newCommitterObjects (m : List (String × Committer))
    (order : List String) : List Committer :=
  order.filterMap (fun k => List.lookup k m)

/-- A repository record as returned by `fetch_org_repos`, reduced to the
fields `process_organizations` reads. -/
structure RepoInfo where
  name : String
  archived : Bool
  fork : Bool
deriving DecidableEq

/-- The `try/except` around one `fetch_repo_committers` call in
`process_organizations` (lines 137-143) and `process_repositories`
(lines 308-314): a raised error is caught and replaced by `[]`. -/
def exceptToResult (r : Except String (List Committer)) : List Committer :=
  match r with
  | .ok cs => cs
  | .error _ => []

/-- Lines 306-314 of `process_repositories`: for each `(owner, repo)` row,
store the fetched committers under `"owner/repo"`, storing `[]` when the
fetch raises. -/
def processRepositories (fetch : String → String → Except String (List Committer))
    (rows : List (String × String)) : List (String × List Committer) :=
  rows.foldl
    (fun m p => dictInsert m (p.1 ++ "/" ++ p.2) (exceptToResult (fetch p.1 p.2)))
    []

/-- Lines 121-147 of `process_organizations`: for each organisation row,
a failed repository listing is caught and skipped; for each non-archived,
non-fork repository, store the fetched committers under `"org/name"`,
storing `[]` when the fetch raises. -/
def processOrganizations (fetch : String → String → Except String (List Committer))
    (orgRows : List (String × Except String (List RepoInfo))) :
    List (String × List Committer) :=
  orgRows.foldl
    (fun m row =>
      match row.2 with
      | .error _ => m
      | .ok repos =>
        repos.foldl
          (fun m2 rep =>
            if rep.archived || rep.fork then m2
            else dictInsert m2 (row.1 ++ "/" ++ rep.name)
              (exceptToResult (fetch row.1 rep.name)))
          m)
    []

/-- The requests of a trace come in consecutive identical pairs. -/
inductive Paired : List (Option String) → Prop where
  | nil : Paired []
  | cons (c : Option String) {l : List (Option String)} :
      Paired l → Paired (c :: c :: l)

/-- The qualifying breakdown logins of a billing payload, repository by
repository, in order: the usernames `analyze_committer_coverage` appends to
`ghas_committer_objects`. -/
def ghasLogins : List GhasRepo → List String
  | [] => []
  | r :: rs =>
    (if r.advanced_security_committers > 0 then
      (r.breakdown.filter (fun b => b.user_login ≠ "")).map BreakdownEntry.user_login
    else []) ++ ghasLogins rs

/-- Number of breakdown entries with a non-empty login across repositories
with a positive committer count. -/
def ghasEntryCount (repos : List GhasRepo) : Nat :=
  (repos.map
    (fun r =>
      if r.advanced_security_committers > 0 then
        (r.breakdown.filter (fun b => b.user_login ≠ "")).length
      else 0)).sum

/-- An author with no linked account, a freeform name and an email. -/
def bobAuthor : Author := ⟨"Bob", "bob@x.com", false, ""⟩

/-- An author with no linked account, a freeform name and no email. -/
def ghostAuthor : Author := ⟨"Ghost", "", false, ""⟩

/-- A two-entry committer dict for the ordering counterexample. -/
def abDict : List (String × Committer) :=
  [("a", ⟨"a", "a@x.com"⟩), ("b", ⟨"b", "b@x.com"⟩)]

/-- A billing payload in which the same login appears in the breakdown of
two different repositories. -/
def twoRepoGhas : List GhasRepo :=
  [⟨1, [⟨"alice", "alice@x.com"⟩]⟩, ⟨1, [⟨"alice", "alice@x.com"⟩]⟩]

/-- A fetch oracle whose every call raises. -/
def fetchBoom : String → String → Except String (List Committer) :=
  fun _ _ => .error "boom"

/-- A single-page round trip whose first response reports an exhausted rate
limit resetting at 1000, and whose second response carries one final empty
history page. -/
def rlTrip : RoundTrip :=
  { first := { headers := ⟨some 0, some 1000⟩, status := 200,
               hasErrors := false, history := none },
    second := { headers := ⟨none, none⟩, status := 200, hasErrors := false,
                history := some ⟨false, none, []⟩ } }

/-- A round trip delivering one author on a page that announces a next
page. -/
def aliceTrip : RoundTrip :=
  { first := { headers := ⟨some 4999, none⟩, status := 200,
               hasErrors := false, history := none },
    second := { headers := ⟨none, none⟩, status := 200, hasErrors := false,
                history := some ⟨true, some "cur1", [⟨"", "", true, "alice"⟩]⟩ } }

/-- A round trip whose second response parses to no history object. -/
def noHistoryTrip : RoundTrip :=
  { first := { headers := ⟨none, none⟩, status := 200, hasErrors := false,
               history := none },
    second := { headers := ⟨none, none⟩, status := 200, hasErrors := false,
                history := none } }

/-- A round trip whose responses both succeed and close the traversal. -/
def plainTrip : RoundTrip :=
  { first := { headers := ⟨some 4800, some 900⟩, status := 200,
               hasErrors := false, history := none },
    second := { headers := ⟨none, none⟩, status := 200, hasErrors := false,
                history := some ⟨false, none, [⟨"", "", true, "alice"⟩]⟩ } }

/-- `plainTrip` with a different body on the FIRST response and different
headers on the SECOND response, but the same first-response headers and the
same second-response body. -/
def plainTripVariant : RoundTrip :=
  { first := { headers := ⟨some 4800, some 900⟩, status := 500,
               hasErrors := true, history := some ⟨true, some "zz", []⟩ },
    second := { headers := ⟨some 1, some 2⟩, status := 200, hasErrors := false,
                history := some ⟨false, none, [⟨"", "", true, "alice"⟩]⟩ } }

/-! ## Helper lemmas -/

/-- Breakdown filterMap projected to usernames is the filtered login list. -/
theorem ghasBreakdownCommitters_map_username (r : GhasRepo) :
    (ghasBreakdownCommitters r).map Committer.username =
      (r.breakdown.filter (fun b => b.user_login ≠ "")).map
        BreakdownEntry.user_login := by
  unfold ghasBreakdownCommitters
  induction r.breakdown with
  | nil => rfl
  | cons b bs ih =>
    by_cases hb : b.user_login = ""
    · rw [List.filterMap_cons_none (by simp [hb]),
        List.filter_cons_of_neg (by simp [hb])]
      exact ih
    · have key :
          List.filterMap
              (fun e : BreakdownEntry =>
                if e.user_login ≠ "" then
                  some (⟨e.user_login, e.email⟩ : Committer)
                else none)
              (b :: bs) =
            (⟨b.user_login, b.email⟩ : Committer) ::
              List.filterMap
                (fun e : BreakdownEntry =>
                  if e.user_login ≠ "" then
                    some (⟨e.user_login, e.email⟩ : Committer)
                  else none)
                bs :=
        List.filterMap_cons_some (by simp [hb])
      rw [key, List.filter_cons_of_pos (by simp [hb]), List.map_cons,
        List.map_cons, ih]

/-- The object-accumulating fold factors through the empty accumulator. -/
theorem ghasObjects_foldl_append (rs : List GhasRepo) :
    ∀ l : List Committer,
      rs.foldl ghasObjStep l = l ++ rs.foldl ghasObjStep [] := by
  induction rs with
  | nil => intro l; simp
  | cons r rs ih =>
    intro l
    rw [List.foldl_cons, List.foldl_cons, ih (ghasObjStep l r),
      ih (ghasObjStep [] r)]
    unfold ghasObjStep
    by_cases h : r.advanced_security_committers > 0 <;> simp [h]

/-- The username projection of `ghas_committer_objects` is the qualifying
login list, repository by repository. -/
theorem ghasObjects_map_username (rs : List GhasRepo) :
    (ghasCommitterObjects rs).map Committer.username = ghasLogins rs := by
  induction rs with
  | nil => rfl
  | cons r rs ih =>
    unfold ghasCommitterObjects at *
    rw [List.foldl_cons, ghasObjects_foldl_append rs (ghasObjStep [] r),
      List.map_append, ih, ghasLogins]
    unfold ghasObjStep
    by_cases h : r.advanced_security_committers > 0 <;>
      simp [h, ghasBreakdownCommitters_map_username r]

/-- The inner set fold over one breakdown adds exactly the qualifying
logins. -/
theorem bdFold_insert (bs : List BreakdownEntry) :
    ∀ s : Finset String,
      bs.foldl
          (fun s2 b => if b.user_login ≠ "" then insert b.user_login s2 else s2)
          s =
        s ∪ ((bs.filter (fun b => b.user_login ≠ "")).map
          BreakdownEntry.user_login).toFinset := by
  induction bs with
  | nil => intro s; simp
  | cons b bs ih =>
    intro s
    simp only [List.foldl_cons]
    by_cases hb : b.user_login = ""
    · rw [if_neg (by simp [hb]), List.filter_cons_of_neg (by simp [hb])]
      exact ih s
    · rw [if_pos hb, ih (insert b.user_login s),
        List.filter_cons_of_pos (by simp [hb]), List.map_cons,
        List.toFinset_cons, Finset.insert_union, Finset.union_insert]

/-- The set-accumulating fold factors through the empty accumulator. -/
theorem ghasUsers_foldl_union (rs : List GhasRepo) :
    ∀ s : Finset String,
      rs.foldl ghasUserStep s = s ∪ rs.foldl ghasUserStep ∅ := by
  induction rs with
  | nil => intro s; simp
  | cons r rs ih =>
    intro s
    rw [List.foldl_cons, List.foldl_cons, ih (ghasUserStep s r),
      ih (ghasUserStep ∅ r)]
    unfold ghasUserStep
    by_cases h : r.advanced_security_committers > 0
    · rw [if_pos h, if_pos h, bdFold_insert r.breakdown s,
        bdFold_insert r.breakdown ∅]
      simp [Finset.union_assoc]
    · rw [if_neg h, if_neg h]
      simp

/-- The username set equals the qualifying login list, as a finite set. -/
theorem ghasUsernames_eq_logins (rs : List GhasRepo) :
    ghasCommitterUsernames rs = (ghasLogins rs).toFinset := by
  induction rs with
  | nil => rfl
  | cons r rs ih =>
    unfold ghasCommitterUsernames at ih ⊢
    rw [List.foldl_cons, ghasUsers_foldl_union rs (ghasUserStep ∅ r), ih]
    simp only [ghasLogins]
    rw [List.toFinset_append]
    unfold ghasUserStep
    by_cases h : r.advanced_security_committers > 0
    · rw [if_pos h, if_pos h, bdFold_insert r.breakdown ∅]
      simp
    · rw [if_neg h, if_neg h]
      simp

/-- The qualifying login list has `ghasEntryCount` elements. -/
theorem ghasLogins_length (rs : List GhasRepo) :
    (ghasLogins rs).length = ghasEntryCount rs := by
  induction rs with
  | nil => rfl
  | cons r rs ih =>
    unfold ghasEntryCount at ih ⊢
    simp only [ghasLogins, List.length_append, List.map_cons, List.sum_cons]
    rw [ih]
    by_cases h : r.advanced_security_committers > 0
    · rw [if_pos h, if_pos h, List.length_map]
    · rw [if_neg h, if_neg h]
      simp

/-- The loop raises exactly when some page reached while it is still running
has a bad status or an error payload. -/
theorem fetchGo_fail_iff (now : Int) (trips : List RoundTrip) :
    ∀ cursor s acc,
      (∃ m, (fetchGo now trips cursor s acc).result = FetchResult.fail m) ↔
        aborts trips = true := by
  induction trips with
  | nil => intro cursor s acc; simp [fetchGo, aborts]
  | cons t rest ih =>
    intro cursor s acc
    simp only [fetchGo, aborts]
    by_cases h1 : t.second.status ≠ 200
    · simp [h1]
    · by_cases h2 : t.second.hasErrors
      · simp [h1, h2]
      · cases hh : t.second.history with
        | none => simp [h1, h2, hh]
        | some hp =>
          by_cases h3 : hp.hasNextPage
          · simp [h1, h2, hh, h3, ih]
          · simp [h1, h2, hh, h3]

/-- Every iteration of the loop sleeps the guard wait of the state it enters
with, so the first recorded wait is the guard wait of the initial state. -/
theorem fetchGo_waits_head (now : Int) (t : RoundTrip) (rest : List RoundTrip)
    (cursor : Option String) (s : RLState) (acc : List (String × Committer)) :
    (fetchGo now (t :: rest) cursor s acc).waits.head? =
      some (guardWait s now) := by
  simp only [fetchGo]
  by_cases h1 : t.second.status ≠ 200
  · simp [h1]
  · by_cases h2 : t.second.hasErrors
    · simp [h1, h2]
    · cases hh : t.second.history with
      | none => simp [h1, h2, hh]
      | some hp =>
        by_cases h3 : hp.hasNextPage
        · simp [h1, h2, hh, h3]
        · simp [h1, h2, hh, h3]

/-- The cursor log of a traversal consists of consecutive identical
pairs. -/
theorem fetchGo_requests_paired (now : Int) (trips : List RoundTrip) :
    ∀ cursor s acc, Paired (fetchGo now trips cursor s acc).requests := by
  induction trips with
  | nil => intro cursor s acc; exact Paired.nil
  | cons t rest ih =>
    intro cursor s acc
    simp only [fetchGo]
    by_cases h1 : t.second.status ≠ 200
    · simp only [if_pos h1]
      exact Paired.cons cursor Paired.nil
    · simp only [if_neg h1]
      by_cases h2 : t.second.hasErrors
      · simp only [h2, if_true]
        exact Paired.cons cursor Paired.nil
      · simp only [h2, if_false]
        cases hh : t.second.history with
        | none => exact Paired.cons cursor Paired.nil
        | some hp =>
          by_cases h3 : hp.hasNextPage
          · simp only [h3, if_true]
            exact Paired.cons cursor (ih _ _ _)
          · simp only [h3, if_false]
            exact Paired.cons cursor Paired.nil

/-- The whole trace depends only on the first responses' headers and the
second responses' status, error flag and body. -/
theorem fetchGo_reads (now : Int) (trips trips2 : List RoundTrip)
    (hf : List.Forall₂
      (fun t u =>
        t.first.headers = u.first.headers ∧
        t.second.status = u.second.status ∧
        t.second.hasErrors = u.second.hasErrors ∧
        t.second.history = u.second.history)
      trips trips2) :
    ∀ cursor s acc,
      fetchGo now trips cursor s acc = fetchGo now trips2 cursor s acc := by
  induction hf with
  | nil => intro cursor s acc; rfl
  | cons h hl ih =>
    intro cursor s acc
    obtain ⟨hh, hst, herr, hhist⟩ := h
    simp only [fetchGo, hh, hst, herr, hhist, ih]

/-- `dictInsert` preserves a property of all stored values. -/
theorem dictInsert_values {α : Type} (P : α → Prop) (m : List (String × α))
    (k : String) (v : α) (hm : ∀ q ∈ m, P q.2) (hv : P v) :
    ∀ q ∈ dictInsert m k v, P q.2 := by
  intro q hq
  unfold dictInsert at hq
  by_cases h : m.any (fun p => p.1 = k)
  · rw [if_pos h] at hq
    obtain ⟨p, hp, hpq⟩ := List.mem_map.mp hq
    by_cases hpk : p.1 = k
    · rw [if_pos hpk] at hpq
      rw [← hpq]
      exact hv
    · rw [if_neg hpk] at hpq
      rw [← hpq]
      exact hm p hp
  · rw [if_neg h] at hq
    rcases List.mem_append.mp hq with h1 | h2
    · exact hm q h1
    · rw [List.mem_singleton.mp h2]
      exact hv

/-- When every fetch raises, the repository-list fold stores only empty
committer lists. -/
theorem processRepos_aux (fetch : String → String → Except String (List Committer))
    (hfail : ∀ o r, ∃ e, fetch o r = Except.error e) :
    ∀ (rows : List (String × String)) (m : List (String × List Committer)),
      (∀ q ∈ m, q.2 = ([] : List Committer)) →
      ∀ q ∈ rows.foldl
          (fun m2 p =>
            dictInsert m2 (p.1 ++ "/" ++ p.2) (exceptToResult (fetch p.1 p.2)))
          m,
        q.2 = ([] : List Committer) := by
  intro rows
  induction rows with
  | nil => intro m hm; simpa using hm
  | cons p rows ih =>
    intro m hm
    rw [List.foldl_cons]
    apply ih
    apply dictInsert_values (fun v => v = ([] : List Committer)) m
      (p.1 ++ "/" ++ p.2) (exceptToResult (fetch p.1 p.2)) hm
    obtain ⟨e, he⟩ := hfail p.1 p.2
    simp [exceptToResult, he]

/-- When every fetch raises, the per-organisation repository fold stores
only empty committer lists. -/
theorem processOrgs_inner_aux (fetch : String → String → Except String (List Committer))
    (hfail : ∀ o r, ∃ e, fetch o r = Except.error e) (org : String) :
    ∀ (repos : List RepoInfo) (m : List (String × List Committer)),
      (∀ q ∈ m, q.2 = ([] : List Committer)) →
      ∀ q ∈ repos.foldl
          (fun m2 rep =>
            if rep.archived || rep.fork then m2
            else dictInsert m2 (org ++ "/" ++ rep.name)
              (exceptToResult (fetch org rep.name)))
          m,
        q.2 = ([] : List Committer) := by
  intro repos
  induction repos with
  | nil => intro m hm; simpa using hm
  | cons rep repos ih =>
    intro m hm
    rw [List.foldl_cons]
    apply ih
    by_cases hskip : (rep.archived || rep.fork) = true
    · rw [if_pos hskip]
      exact hm
    · rw [if_neg hskip]
      apply dictInsert_values (fun v => v = ([] : List Committer)) m
        (org ++ "/" ++ rep.name) (exceptToResult (fetch org rep.name)) hm
      obtain ⟨e, he⟩ := hfail org rep.name
      simp [exceptToResult, he]

/-- When every fetch raises, the organisation fold stores only empty
committer lists. -/
theorem processOrgs_aux (fetch : String → String → Except String (List Committer))
    (hfail : ∀ o r, ∃ e, fetch o r = Except.error e) :
    ∀ (orgRows : List (String × Except String (List RepoInfo)))
      (m : List (String × List Committer)),
      (∀ q ∈ m, q.2 = ([] : List Committer)) →
      ∀ q ∈ orgRows.foldl
          (fun m2 row =>
            match row.2 with
            | .error _ => m2
            | .ok repos =>
              repos.foldl
                (fun m3 rep =>
                  if rep.archived || rep.fork then m3
                  else dictInsert m3 (row.1 ++ "/" ++ rep.name)
                    (exceptToResult (fetch row.1 rep.name)))
                m2)
          m,
        q.2 = ([] : List Committer) := by
  intro orgRows
  induction orgRows with
  | nil => intro m hm; simpa using hm
  | cons row orgRows ih =>
    intro m hm
    rw [List.foldl_cons]
    apply ih
    cases hrow : row.2 with
    | error e => simpa [hrow] using hm
    | ok repos =>
      simp only [hrow]
      exact processOrgs_inner_aux fetch hfail row.1 repos m hm

/-! ## Claim theorems -/

/-- C1 counterexample: for an author with no linked account but a freeform
name (`bobAuthor`), the resolved key is the name `"Bob"`, not the non-empty
email, contradicting the claimed fallback to the raw email address; and an
author with neither login nor email but a name (`ghostAuthor`) does
contribute an entry. -/
theorem c1_counterexample :
    authorKey bobAuthor = "Bob"
  ∧ bobAuthor.email = "bob@x.com"
  ∧ authorKey bobAuthor ≠ bobAuthor.email
  ∧ bobAuthor.hasUser = false
  ∧ insertAuthor [] ghostAuthor = [("Ghost", ⟨"Ghost", ""⟩)] := by
  refine ⟨by decide, by decide, by decide, by decide, by decide⟩

/-- C1 amended: when the linked user object is truthy and its login
non-empty, the resolved key is that login; when the user object is falsy,
the key falls back to the author NAME when non-empty; only when the
username-side value is empty does the key fall back to the email; a record
whose resulting key is empty contributes nothing. -/
theorem c1_amended_resolution (a : Author) (m : List (String × Committer)) :
    (a.hasUser = true → a.login ≠ "" →
      insertAuthor m a = dictInsert m a.login ⟨a.login, a.email⟩)
  ∧ (a.hasUser = false → a.name ≠ "" →
      insertAuthor m a = dictInsert m a.name ⟨a.name, a.email⟩)
  ∧ (authorUsername a = "" → a.email ≠ "" →
      insertAuthor m a = dictInsert m a.email ⟨"", a.email⟩)
  ∧ (authorUsername a = "" → a.email = "" → insertAuthor m a = m) := by
  refine ⟨?_, ?_, ?_, ?_⟩
  · intro h1 h2
    simp [insertAuthor, authorKey, authorUsername, h1, h2]
  · intro h1 h2
    simp [insertAuthor, authorKey, authorUsername, h1, h2]
  · intro h1 h2
    simp [insertAuthor, authorKey, h1, h2]
  · intro h1 h2
    simp [insertAuthor, authorKey, h1, h2]

/-- C1 witness: the amended resolution applied to a concrete author with a
linked login. -/
theorem c1_amended_resolution_witness :
    insertAuthor [] ⟨"Al Ice", "al@x.com", true, "alice"⟩ =
      dictInsert [] "alice" ⟨"alice", "al@x.com"⟩ :=
  (c1_amended_resolution ⟨"Al Ice", "al@x.com", true, "alice"⟩ []).1 rfl
    (by decide)

/-- C2: the uncovered key set of `analyze_committer_coverage` is the
resolved-key set difference, so its union with the intersection of the
entitlement keys and the committer keys is the committer key set, and it is
disjoint from the entitlement keys. -/
theorem c2_uncovered_set_difference (repoData : List (List Committer))
    (repos : List GhasRepo) :
    newCommitterKeys repoData repos ∪
        (ghasCommitterUsernames repos ∩ keysOf (allRepoCommitters repoData)) =
      keysOf (allRepoCommitters repoData)
  ∧ Disjoint (newCommitterKeys repoData repos) (ghasCommitterUsernames repos) := by
  constructor
  · rw [newCommitterKeys, Finset.inter_comm]
    exact Finset.sdiff_union_inter _ _
  · exact Finset.sdiff_disjoint

/-- C3 counterexample: the uncovered-committer list is read off a Python
hash set; two legitimate iteration orders of the same two-element key set
give different output sequences, so the output order is not a function of
the inputs alone and is not guaranteed identical across runs. -/
theorem c3_counterexample :
    List.Perm ["a", "b"] ["b", "a"]
  ∧ newCommitterObjects abDict ["a", "b"] ≠ newCommitterObjects abDict ["b", "a"] := by
  refine ⟨by decide, by decide⟩

/-- C3 amended: the uncovered-committer output is deterministic only up to
the hash-set enumeration order — any two enumerations of the same key set
yield permutations of the same committer list. -/
theorem c3_amended_order_dependence (m : List (String × Committer))
    (o1 o2 : List String) (h : List.Perm o1 o2) :
    List.Perm (newCommitterObjects m o1) (newCommitterObjects m o2) := by
  unfold newCommitterObjects
  exact h.filterMap _

/-- C3 witness: the amended order statement at a concrete dict and pair of
enumerations. -/
theorem c3_amended_order_dependence_witness :
    List.Perm (newCommitterObjects abDict ["a", "b"])
      (newCommitterObjects abDict ["b", "a"]) :=
  c3_amended_order_dependence abDict ["a", "b"] ["b", "a"] (by decide)

/-- C4 counterexample: with the same login in the breakdown of two
repositories, the entitled sequence lists it twice and
`total_ghas_committers` is 2, while only one distinct username is
licensed. -/
theorem c4_counterexample :
    (ghasCommitterObjects twoRepoGhas).map Committer.username = ["alice", "alice"]
  ∧ totalGhasCommitters twoRepoGhas = 2
  ∧ (ghasCommitterUsernames twoRepoGhas).card = 1 := by
  refine ⟨by decide, by decide, by decide⟩

/-- C4 amended: the entitled sequence holds one entry per breakdown entry
with a positive repository count and non-empty login — duplicates across
repositories included — and `total_ghas_committers` counts those entries;
the set of usernames occurring in it is the dedup set used for the
difference. -/
theorem c4_amended_entitled (repos : List GhasRepo) :
    totalGhasCommitters repos = ghasEntryCount repos
  ∧ ((ghasCommitterObjects repos).map Committer.username).toFinset =
      ghasCommitterUsernames repos := by
  constructor
  · unfold totalGhasCommitters
    rw [← ghasLogins_length, ← ghasObjects_map_username, List.length_map]
  · rw [ghasObjects_map_username, ghasUsernames_eq_logins]

/-- C5 counterexample: a failure fetching a single explicitly-requested
repository is NOT surfaced: `process_repositories` catches it and stores an
empty committer list for that repository. -/
theorem c5_counterexample :
    processRepositories fetchBoom [("octo", "widgets")] = [("octo/widgets", [])] := by
  decide

/-- C5 amended: per-repository collection failures are caught and mapped to
an empty result in BOTH `process_organizations` and `process_repositories`;
neither surfaces them. -/
theorem c5_amended_catch (fetch : String → String → Except String (List Committer))
    (rows : List (String × String))
    (orgRows : List (String × Except String (List RepoInfo)))
    (hfail : ∀ o r, ∃ e, fetch o r = Except.error e) :
    (∀ q ∈ processRepositories fetch rows, q.2 = ([] : List Committer))
  ∧ (∀ q ∈ processOrganizations fetch orgRows, q.2 = ([] : List Committer)) := by
  constructor
  · exact processRepos_aux fetch hfail rows [] (by simp)
  · exact processOrgs_aux fetch hfail orgRows [] (by simp)

/-- C5 witness: the amended catch statement applied to a concrete failing
fetch and row. -/
theorem c5_amended_catch_witness :
    (("octo/widgets", ([] : List Committer))).2 = ([] : List Committer) :=
  (c5_amended_catch fetchBoom [("octo", "widgets")] []
      (fun o r => ⟨"boom", rfl⟩)).1
    ("octo/widgets", []) (by decide)

/-- C6: the traversal raises a fetch failure exactly when it reaches a page
with a non-success status or an error-bearing payload, and a reachable page
with no history object yields the empty committer set, not an error. -/
theorem c6_failure_semantics :
    (∀ (now : Int) (trips : List RoundTrip) (cursor : Option String)
       (s : RLState) (acc : List (String × Committer)),
       (∃ m, (fetchGo now trips cursor s acc).result = FetchResult.fail m) ↔
         aborts trips = true)
  ∧ (∀ (now : Int) (t : RoundTrip) (rest : List RoundTrip),
       t.second.status = 200 → t.second.hasErrors = false →
       t.second.history = none →
       (fetchRepoCommitters now (t :: rest)).result = FetchResult.ok []) := by
  constructor
  · exact fun now trips cursor s acc => fetchGo_fail_iff now trips cursor s acc
  · intro now t rest h1 h2 h3
    simp [fetchRepoCommitters, fetchGo, h1, h2, h3]

/-- C6 witness: the failure semantics instantiated at a concrete
history-free page. -/
theorem c6_failure_semantics_witness :
    ((∃ m, (fetchGo 0 [noHistoryTrip] none rlInit []).result = FetchResult.fail m)
        ↔ aborts [noHistoryTrip] = true)
  ∧ (fetchRepoCommitters 0 [noHistoryTrip]).result = FetchResult.ok [] :=
  ⟨c6_failure_semantics.1 0 [noHistoryTrip] none rlInit [],
   c6_failure_semantics.2 0 noHistoryTrip [] rfl rfl rfl⟩

/-- C7: with fewer than 1 remaining request and a known future reset time,
the guard sleeps exactly `(resetAt - now) + 1` seconds — at least the time
to the reset plus the one-second margin — and this wait is performed before
the iteration's requests. -/
theorem c7_guard_blocks (s : RLState) (now r : Int) (h1 : s.remaining < 1)
    (h2 : s.reset = some r) (h3 : now < r) :
    guardWait s now = (r - now) + 1
  ∧ ∀ (t : RoundTrip) (rest : List RoundTrip) (cursor : Option String)
      (acc : List (String × Committer)),
      (fetchGo now (t :: rest) cursor s acc).waits.head? =
        some (guardWait s now) := by
  constructor
  · simp only [guardWait, h2]
    rw [if_pos h1, if_pos (by omega)]
  · exact fun t rest cursor acc => fetchGo_waits_head now t rest cursor s acc

/-- C7 witness: remaining 0, reset 5 seconds ahead — the guard waits 6
seconds, at least the 5 seconds to the reset. -/
theorem c7_guard_blocks_witness :
    guardWait ⟨0, some 105⟩ 100 = (105 - 100) + 1 ∧ (5 : Int) ≤ (105 - 100) + 1 :=
  ⟨(c7_guard_blocks ⟨0, some 105⟩ 100 105 (by decide) rfl (by decide)).1,
   by decide⟩

/-- C8 counterexample: a traversal ends with the client having seen
remaining 0 and reset 1000, a state whose guard wait at time 900 is 101
seconds — yet a new traversal by the same client at time 900 waits 0 before
its first request, because `fetch_repo_committers` re-initialises the
rate-limit state on every call instead of persisting it. -/
theorem c8_counterexample :
    (fetchRepoCommitters 900 [rlTrip]).rlState = ⟨0, some 1000⟩
  ∧ guardWait ⟨0, some 1000⟩ 900 = 101
  ∧ (fetchRepoCommitters 900 [rlTrip]).waits = [0] := by
  refine ⟨by decide, by decide, by decide⟩

/-- C8 amended: the rate-limit state is per-traversal: each
`fetch_repo_committers` call starts from remaining 5000 and no reset time
(so its first request is never blocked); within a traversal the state is
updated from first-response headers when present and left unchanged when
absent. -/
theorem c8_amended_per_traversal :
    (∀ s : RLState, rlUpdate s ⟨none, none⟩ = s)
  ∧ (∀ (s : RLState) (n t : Int), rlUpdate s ⟨some n, some t⟩ = ⟨n, some t⟩)
  ∧ (∀ (s : RLState) (n : Int), rlUpdate s ⟨some n, none⟩ = ⟨n, s.reset⟩)
  ∧ (∀ (s : RLState) (t : Int), rlUpdate s ⟨none, some t⟩ = ⟨s.remaining, some t⟩)
  ∧ (∀ now : Int, guardWait rlInit now = 0)
  ∧ (∀ (now : Int) (t : RoundTrip) (rest : List RoundTrip),
      (fetchRepoCommitters now (t :: rest)).waits.head? =
        some (guardWait rlInit now)) := by
  refine ⟨?_, ?_, ?_, ?_, ?_, ?_⟩
  · intro s; rfl
  · intro s n t; rfl
  · intro s n; rfl
  · intro s t; rfl
  · intro now; rfl
  · intro now t rest
    exact fetchGo_waits_head now t rest none rlInit []

/-- C9: every iteration posts the same cursor twice in succession, and the
whole observable trace depends only on the first responses' rate-limit
headers and the second responses' status, error flag and parsed body. -/
theorem c9_double_post :
    (∀ (now : Int) (trips : List RoundTrip) (cursor : Option String)
       (s : RLState) (acc : List (String × Committer)),
       Paired (fetchGo now trips cursor s acc).requests)
  ∧ (∀ (now : Int) (trips trips2 : List RoundTrip),
       List.Forall₂
         (fun t u =>
           t.first.headers = u.first.headers ∧
           t.second.status = u.second.status ∧
           t.second.hasErrors = u.second.hasErrors ∧
           t.second.history = u.second.history)
         trips trips2 →
       ∀ (cursor : Option String) (s : RLState)
         (acc : List (String × Committer)),
         fetchGo now trips cursor s acc = fetchGo now trips2 cursor s acc) :=
  ⟨fun now trips cursor s acc => fetchGo_requests_paired now trips cursor s acc,
   fun now trips trips2 hf => fetchGo_reads now trips trips2 hf⟩

/-- C9 witness: two concrete response streams agreeing on first-response
headers and second-response bodies — but differing in the first response's
body and the second response's headers — produce identical traces. -/
theorem c9_double_post_witness :
    fetchGo 0 [plainTrip] none rlInit [] =
      fetchGo 0 [plainTripVariant] none rlInit [] :=
  c9_double_post.2 0 [plainTrip] [plainTripVariant]
    (List.Forall₂.cons ⟨rfl, rfl, rfl, rfl⟩ List.Forall₂.nil) none rlInit []

/-- C10: whenever a reached page — at any point of the traversal, with any
committers already accumulated — parses to no history object, the call
returns the empty list, discarding the accumulator; concretely, a traversal
that first collects an author and then meets a history-free page returns
the empty list. -/
theorem c10_no_history_discards :
    (∀ (now : Int) (t : RoundTrip) (rest : List RoundTrip)
       (cursor : Option String) (s : RLState)
       (acc : List (String × Committer)),
       t.second.status = 200 → t.second.hasErrors = false →
       t.second.history = none →
       (fetchGo now (t :: rest) cursor s acc).result = FetchResult.ok [])
  ∧ (fetchRepoCommitters 0 [aliceTrip, noHistoryTrip]).result =
      FetchResult.ok [] := by
  constructor
  · intro now t rest cursor s acc h1 h2 h3
    simp [fetchGo, h1, h2, h3]
  · decide

/-- C10 witness: the discard statement applied mid-traversal with a
non-empty accumulator. -/
theorem c10_no_history_discards_witness :
    (fetchGo 0 [noHistoryTrip] (some "cur1") rlInit
        [("alice", ⟨"alice", ""⟩)]).result = FetchResult.ok [] :=
  c10_no_history_discards.1 0 noHistoryTrip [] (some "cur1") rlInit
    [("alice", ⟨"alice", ""⟩)] rfl rfl rfl
